import Mathlib

/-!
Shallow embedding of `skreynolds/RLND_pytorch_introduction`
(`01_convolutional_neural_networks/00_first_network`): the `Net` module of
`network_class.py` (a 2D convolution, a ReLU, a 2x2 max-pool, a flatten, a
linear layer, and a final ReLU) and the `main` script of `main.py`.

Tensors are modelled as nested lists of integer values; the shape-mismatch
failures the framework raises at run time are modelled by `Option`.
-/

/-- Scalar values flowing through the network. -/
abbrev Val := Int

/-- A 2-D tensor slice (height x width). -/
abbrev Mat := List (List Val)

/-- A channels x height x width tensor (one sample). -/
abbrev Chans := List Mat

/-- A batch x channels x height x width tensor. -/
abbrev Batch := List Chans

/-- `F.relu`: element-wise rectified-linear activation. -/
def relu (x : Val) : Val := max 0 x

/-- The `kh x kw` window of `m` whose top-left corner is at `(i, j)`. -/
def window (m : Mat) (i j kh kw : ℕ) : Mat :=
  ((m.drop i).take kh).map (fun row => (row.drop j).take kw)

/-- Sum of the element-wise product of two 2-D slices. -/
def dot2 (a b : Mat) : Val :=
  (List.zipWith (fun ra rb => (List.zipWith (fun p q => p * q) ra rb).sum) a b).sum

/-- Height of the (first channel of the) sample `x`. -/
def matH (x : Chans) : ℕ := (x.headD []).length

/-- Width of the (first row of the first channel of the) sample `x`. -/
def matW (x : Chans) : ℕ := ((x.headD []).headD []).length

/-- `nn.Conv2d(in_channels, out_channels, kernel_size)` with the default
stride 1 and padding 0; `weight` is out_channels x in_channels x k x k. -/
structure Conv2dLayer where
  in_channels : ℕ
  out_channels : ℕ
  kernel_size : ℕ
  weight : List Chans
  bias : List Val

/-- Applying a `Conv2dLayer` to one sample: a valid (no padding, stride 1)
cross-correlation; fails if the channel count differs or the kernel does not
fit, as the framework does. -/
def conv2dApply (l : Conv2dLayer) (x : Chans) : Option Chans :=
  if x.length = l.in_channels ∧ l.kernel_size ≤ matH x ∧ l.kernel_size ≤ matW x then
    some ((List.zip l.weight l.bias).map (fun wb =>
      (List.range (matH x - l.kernel_size + 1)).map (fun i =>
        (List.range (matW x - l.kernel_size + 1)).map (fun j =>
          wb.2 + ((List.zip wb.1 x).map (fun cw =>
            dot2 cw.1 (window cw.2 i j l.kernel_size l.kernel_size))).sum))))
  else none

/-- `nn.MaxPool2d(kernel_size, stride)`. -/
structure MaxPool2dLayer where
  kernel_size : ℕ
  stride : ℕ

/-- Maximum entry of a (nonempty) 2-D slice. -/
def matMax (m : Mat) : Val :=
  match m.flatten with
  | [] => 0
  | a :: rest => rest.foldl max a

/-- Applying a `MaxPool2dLayer` to one sample; fails if the window does not
fit, as the framework does when the output size would be non-positive. -/
def maxpoolApply (l : MaxPool2dLayer) (x : Chans) : Option Chans :=
  if l.kernel_size ≤ matH x ∧ l.kernel_size ≤ matW x ∧ 0 < l.stride then
    some (x.map (fun ch =>
      (List.range ((matH x - l.kernel_size) / l.stride + 1)).map (fun i =>
        (List.range ((matW x - l.kernel_size) / l.stride + 1)).map (fun j =>
          matMax (window ch (i * l.stride) (j * l.stride) l.kernel_size l.kernel_size)))))
  else none

/-- `F.relu` applied element-wise to a whole sample. -/
def reluChans (x : Chans) : Chans := x.map (fun m => m.map (fun r => r.map relu))

/-- `nn.Linear(in_features, out_features)`; `weight` is
out_features x in_features. -/
structure LinearLayer where
  in_features : ℕ
  out_features : ℕ
  weight : List (List Val)
  bias : List Val

/-- Applying a `LinearLayer` to one feature vector; fails on a length
mismatch, as the framework's matrix multiply does. -/
def linearApply (l : LinearLayer) (v : List Val) : Option (List Val) :=
  if v.length = l.in_features then
    some ((List.zip l.weight l.bias).map (fun wb =>
      wb.2 + (List.zipWith (fun p q => p * q) wb.1 v).sum))
  else none

/-- The `Net` module: its three layers, as built by `Net.__init__`. -/
structure Net where
  conv1 : Conv2dLayer
  pool : MaxPool2dLayer
  fcl : LinearLayer

/-- `Net.__init__(n_classes)`: `conv1 = nn.Conv2d(1, 32, 5)`,
`pool = nn.MaxPool2d(2, 2)`, `fcl = nn.Linear(32*4, n_classes)`.  The
randomly initialised parameter tensors are taken as arguments. -/
def Net.init (n_classes : ℕ) (cw : List Chans) (cb : List Val)
    (lw : List (List Val)) (lb : List Val) : Net :=
  { conv1 := { in_channels := 1, out_channels := 32, kernel_size := 5,
               weight := cw, bias := cb }
    pool := { kernel_size := 2, stride := 2 }
    fcl := { in_features := 32 * 4, out_features := n_classes,
             weight := lw, bias := lb } }

/-- `x.view(x.size(0), -1)` restricted to one sample: flatten all
dimensions except the batch dimension, row-major. -/
def flattenSample (x : Chans) : List Val := x.flatten.flatten

/-- `Net.forward` on one sample of the batch:
`x = self.pool(F.relu(self.conv1(x)))`, then flatten, then
`x = F.relu(self.fcl(x))`, which is returned. -/
def sampleForward (net : Net) (s : Chans) : Option (List Val) :=
  (conv2dApply net.conv1 s).bind (fun c =>
    (maxpoolApply net.pool (reluChans c)).bind (fun p =>
      (linearApply net.fcl (flattenSample p)).map (fun y => y.map relu)))

/-- Traverse a batch sample-by-sample, failing if any sample fails. -/
def batchTraverse (f : Chans → Option (List Val)) : Batch → Option (List (List Val))
  | [] => some []
  | s :: rest =>
    match f s, batchTraverse f rest with
    | some y, some ys => some (y :: ys)
    | _, _ => none

/-- `Net.forward` on a whole batch. -/
def Net.forward (net : Net) (x : Batch) : Option (List (List Val)) :=
  batchTraverse (sampleForward net) x

/-- `m` is a well-formed `H x W` 2-D slice. -/
abbrev matWF (H W : ℕ) (m : Mat) : Prop := m.length = H ∧ ∀ r ∈ m, r.length = W

/-- `x` is a well-formed `C x H x W` sample. -/
abbrev chansWF (C H W : ℕ) (x : Chans) : Prop := x.length = C ∧ ∀ m ∈ x, matWF H W m

/-- `x` is a well-formed `B x C x H x W` batch. -/
abbrev batchWF (B C H W : ℕ) (x : Batch) : Prop := x.length = B ∧ ∀ s ∈ x, chansWF C H W s

/-- The parameter tensors of a convolution layer have the shapes the
framework allocates. -/
abbrev Conv2dLayer.paramsWF (l : Conv2dLayer) : Prop :=
  l.weight.length = l.out_channels ∧
  (∀ w ∈ l.weight, chansWF l.in_channels l.kernel_size l.kernel_size w) ∧
  l.bias.length = l.out_channels

/-- The parameter tensors of a linear layer have the shapes the framework
allocates. -/
abbrev LinearLayer.paramsWF (l : LinearLayer) : Prop :=
  l.weight.length = l.out_features ∧
  (∀ r ∈ l.weight, r.length = l.in_features) ∧
  l.bias.length = l.out_features

/-- All parameter tensors of the net have the framework-allocated shapes. -/
abbrev Net.paramsWF (net : Net) : Prop := net.conv1.paramsWF ∧ net.fcl.paramsWF

/-- Zero-valued convolution weights of the shape `Conv2d(1, 32, 5)` allocates. -/
def cw0 : List Chans := List.replicate 32 [List.replicate 5 (List.replicate 5 (0 : Val))]

/-- Zero-valued convolution bias of length 32. -/
def cb0 : List Val := List.replicate 32 0

/-- Zero-valued linear weights of the shape `Linear(128, n)` allocates. -/
def lw0 (n : ℕ) : List (List Val) := List.replicate n (List.replicate 128 0)

/-- Zero-valued linear bias of length `n`. -/
def lb0 (n : ℕ) : List Val := List.replicate n 0

/-- A concrete net with `n_classes` classes and zero-valued parameters. -/
def net0 (n_classes : ℕ) : Net := Net.init n_classes cw0 cb0 (lw0 n_classes) (lb0 n_classes)

/-- A single-sample batch of one all-zero `H x W` grayscale image. -/
def zeroInput (H W : ℕ) : Batch := [[List.replicate H (List.replicate W (0 : Val))]]

set_option maxRecDepth 100000

/-! ### Shape lemmas for the individual operations -/

theorem matH_of_wf {C H W : ℕ} {x : Chans} (hwf : chansWF C H W x) (hC : 0 < C) :
    matH x = H := by
  obtain ⟨hlen, hall⟩ := hwf
  cases x with
  | nil => simp at hlen; omega
  | cons m rest => simpa [matH] using (hall m (List.mem_cons_self m rest)).1

theorem matW_of_wf {C H W : ℕ} {x : Chans} (hwf : chansWF C H W x) (hC : 0 < C)
    (hH : 0 < H) : matW x = W := by
  obtain ⟨hlen, hall⟩ := hwf
  cases x with
  | nil => simp at hlen; omega
  | cons m rest =>
    obtain ⟨hmlen, hrows⟩ := hall m (List.mem_cons_self m rest)
    cases m with
    | nil => simp at hmlen; omega
    | cons r rrows => simpa [matW] using hrows r (List.mem_cons_self r rrows)

theorem conv2dApply_shape {l : Conv2dLayer} {H W : ℕ} {x : Chans}
    (hp : l.paramsWF) (hx : chansWF l.in_channels H W x)
    (hC : 0 < l.in_channels) (hk : 0 < l.kernel_size)
    (hH : l.kernel_size ≤ H) (hW : l.kernel_size ≤ W) :
    ∃ c, conv2dApply l x = some c ∧
      chansWF l.out_channels (H - l.kernel_size + 1) (W - l.kernel_size + 1) c := by
  have hmH : matH x = H := matH_of_wf hx hC
  have hmW : matW x = W := matW_of_wf hx hC (lt_of_lt_of_le hk hH)
  have hguard : x.length = l.in_channels ∧
      l.kernel_size ≤ matH x ∧ l.kernel_size ≤ matW x :=
    ⟨hx.1, by rw [hmH]; exact hH, by rw [hmW]; exact hW⟩
  refine ⟨_, by rw [conv2dApply, if_pos hguard], ?_, ?_⟩
  · simp [List.length_zip, hp.1, hp.2.2]
  · intro m hm
    simp only [List.mem_map] at hm
    obtain ⟨wb, _, rfl⟩ := hm
    refine ⟨by simp [hmH], ?_⟩
    intro r hr
    simp only [List.mem_map, List.mem_range] at hr
    obtain ⟨i, _, rfl⟩ := hr
    simp [hmW]

theorem conv2dApply_none {l : Conv2dLayer} {H W : ℕ} {x : Chans}
    (hx : chansWF l.in_channels H W x) (hC : 0 < l.in_channels)
    (h : H < l.kernel_size ∨ W < l.kernel_size) :
    conv2dApply l x = none := by
  have hmH : matH x = H := matH_of_wf hx hC
  rcases h with h | h
  · rw [conv2dApply, if_neg]
    rintro ⟨-, hbad, -⟩
    rw [hmH] at hbad
    omega
  · by_cases hHk : l.kernel_size ≤ H
    · have hH : 0 < H := lt_of_lt_of_le (by omega) hHk
      have hmW : matW x = W := matW_of_wf hx hC hH
      rw [conv2dApply, if_neg]
      rintro ⟨-, -, hbad⟩
      rw [hmW] at hbad
      omega
    · rw [conv2dApply, if_neg]
      rintro ⟨-, hbad, -⟩
      rw [hmH] at hbad
      omega

theorem reluChans_wf {C H W : ℕ} {x : Chans} (hx : chansWF C H W x) :
    chansWF C H W (reluChans x) := by
  obtain ⟨hlen, hall⟩ := hx
  refine ⟨by simpa [reluChans] using hlen, ?_⟩
  intro m hm
  simp only [reluChans, List.mem_map] at hm
  obtain ⟨m0, hm0, rfl⟩ := hm
  obtain ⟨h1, h2⟩ := hall m0 hm0
  refine ⟨by simpa using h1, ?_⟩
  intro r hr
  simp only [List.mem_map] at hr
  obtain ⟨r0, hr0, rfl⟩ := hr
  simpa using h2 r0 hr0

theorem maxpoolApply_shape (l : MaxPool2dLayer) {C H W : ℕ} {x : Chans}
    (hx : chansWF C H W x) (hC : 0 < C) (hk : 0 < l.kernel_size)
    (hs : 0 < l.stride) (hH : l.kernel_size ≤ H) (hW : l.kernel_size ≤ W) :
    ∃ p, maxpoolApply l x = some p ∧
      chansWF C ((H - l.kernel_size) / l.stride + 1)
        ((W - l.kernel_size) / l.stride + 1) p := by
  have hmH : matH x = H := matH_of_wf hx hC
  have hmW : matW x = W := matW_of_wf hx hC (lt_of_lt_of_le hk hH)
  have hguard : l.kernel_size ≤ matH x ∧ l.kernel_size ≤ matW x ∧ 0 < l.stride :=
    ⟨by rw [hmH]; exact hH, by rw [hmW]; exact hW, hs⟩
  refine ⟨_, by rw [maxpoolApply, if_pos hguard], ?_, ?_⟩
  · simpa using hx.1
  · intro m hm
    simp only [List.mem_map] at hm
    obtain ⟨ch, _, rfl⟩ := hm
    refine ⟨by simp [hmH], ?_⟩
    intro r hr
    simp only [List.mem_map, List.mem_range] at hr
    obtain ⟨i, _, rfl⟩ := hr
    simp [hmW]

theorem maxpoolApply_none (l : MaxPool2dLayer) {C H W : ℕ} {x : Chans}
    (hx : chansWF C H W x) (hC : 0 < C) (hH : 0 < H)
    (h : H < l.kernel_size ∨ W < l.kernel_size) :
    maxpoolApply l x = none := by
  have hmH : matH x = H := matH_of_wf hx hC
  have hmW : matW x = W := matW_of_wf hx hC hH
  rw [maxpoolApply, if_neg]
  rintro ⟨h1, h2, -⟩
  rw [hmH] at h1
  rw [hmW] at h2
  omega

theorem flatten_length_const {α : Type} {n : ℕ} :
    ∀ L : List (List α), (∀ r ∈ L, r.length = n) → L.flatten.length = L.length * n := by
  intro L
  induction L with
  | nil => simp
  | cons r rest ih =>
    intro h
    simp only [List.flatten_cons, List.length_append, List.length_cons]
    rw [h r (List.mem_cons_self r rest),
      ih (fun s hs => h s (List.mem_cons_of_mem r hs))]
    ring

theorem flattenSample_length {C H W : ℕ} {x : Chans} (hx : chansWF C H W x) :
    (flattenSample x).length = C * H * W := by
  obtain ⟨hlen, hall⟩ := hx
  have h1 : x.flatten.length = C * H := by
    rw [flatten_length_const x (fun m hm => (hall m hm).1), hlen]
  have h2 : ∀ r ∈ x.flatten, r.length = W := by
    intro r hr
    obtain ⟨m, hm, hrm⟩ := List.mem_flatten.mp hr
    exact (hall m hm).2 r hrm
  rw [flattenSample, flatten_length_const _ h2, h1]

theorem linearApply_some {l : LinearLayer} {v : List Val}
    (hp : l.paramsWF) (hv : v.length = l.in_features) :
    ∃ y, linearApply l v = some y ∧ y.length = l.out_features := by
  refine ⟨_, by rw [linearApply, if_pos hv], ?_⟩
  simp [List.length_zip, hp.1, hp.2.2]

theorem linearApply_none {l : LinearLayer} {v : List Val}
    (hv : v.length ≠ l.in_features) : linearApply l v = none := by
  rw [linearApply, if_neg hv]

theorem linearApply_some_inv {l : LinearLayer} {v y : List Val}
    (h : linearApply l v = some y) :
    v.length = l.in_features ∧ y.length = min l.weight.length l.bias.length := by
  by_cases hv : v.length = l.in_features
  · rw [linearApply, if_pos hv, Option.some.injEq] at h
    exact ⟨hv, by rw [← h]; simp [List.length_zip]⟩
  · rw [linearApply, if_neg hv] at h
    exact absurd h (by simp)

/-! ### Lemmas about batch traversal -/

theorem batchTraverse_all_some {f : Chans → Option (List Val)} {P : List Val → Prop} :
    ∀ {x : Batch}, (∀ s ∈ x, ∃ y, f s = some y ∧ P y) →
      ∃ ys, batchTraverse f x = some ys ∧ ys.length = x.length ∧ ∀ y ∈ ys, P y := by
  intro x
  induction x with
  | nil => intro _; exact ⟨[], rfl, rfl, by simp⟩
  | cons s rest ih =>
    intro h
    obtain ⟨y, hy, hPy⟩ := h s (List.mem_cons_self s rest)
    obtain ⟨ys, hys, hlen, hall⟩ := ih (fun t ht => h t (List.mem_cons_of_mem s ht))
    refine ⟨y :: ys, ?_, by simp [hlen], ?_⟩
    · simp [batchTraverse, hy, hys]
    · intro z hz
      rcases List.mem_cons.mp hz with rfl | hz
      · exact hPy
      · exact hall z hz

theorem batchTraverse_none_of_mem {f : Chans → Option (List Val)} {s : Chans} :
    ∀ {x : Batch}, s ∈ x → f s = none → batchTraverse f x = none := by
  intro x
  induction x with
  | nil => intro h; exact absurd h (by simp)
  | cons t rest ih =>
    intro hmem hnone
    rcases List.mem_cons.mp hmem with rfl | hmem
    · simp [batchTraverse, hnone]
    · rw [batchTraverse, ih hmem hnone]
      cases f t <;> simp

theorem batchTraverse_mem_some {f : Chans → Option (List Val)} :
    ∀ {x : Batch} {ys : List (List Val)}, batchTraverse f x = some ys →
      ∀ y ∈ ys, ∃ s ∈ x, f s = some y := by
  intro x
  induction x with
  | nil =>
    intro ys h y hy
    rw [batchTraverse, Option.some.injEq] at h
    subst h
    exact absurd hy (by simp)
  | cons t rest ih =>
    intro ys h y hy
    rw [batchTraverse] at h
    cases hft : f t with
    | none => rw [hft] at h; exact absurd h (by simp)
    | some z =>
      rw [hft] at h
      cases hrest : batchTraverse f rest with
      | none => rw [hrest] at h; exact absurd h (by simp)
      | some zs =>
        rw [hrest] at h
        simp only [Option.some_bind, Option.map_some, Option.some.injEq] at h
        subst h
        rcases List.mem_cons.mp hy with rfl | hy
        · exact ⟨t, List.mem_cons_self t rest, hft⟩
        · obtain ⟨s, hs, hfs⟩ := ih hrest y hy
          exact ⟨s, List.mem_cons_of_mem t hs, hfs⟩

/-! ### Stage lemmas for the `Net` forward pass -/

theorem convPool_some {n : ℕ} {cw : List Chans} {cb : List Val} {lw : List (List Val)}
    {lb : List Val} {H W : ℕ} {s : Chans}
    (hp : (Net.init n cw cb lw lb).paramsWF) (hs : chansWF 1 H W s)
    (hH : 6 ≤ H) (hW : 6 ≤ W) :
    ∃ c p, conv2dApply (Net.init n cw cb lw lb).conv1 s = some c ∧
      maxpoolApply (Net.init n cw cb lw lb).pool (reluChans c) = some p ∧
      chansWF 32 ((H - 4) / 2) ((W - 4) / 2) p := by
  have hs1 : chansWF (Net.init n cw cb lw lb).conv1.in_channels H W s := hs
  obtain ⟨c, hc, hcwf⟩ := conv2dApply_shape hp.1 hs1 (by show 0 < 1; decide)
    (by show 0 < 5; decide) (by show 5 ≤ H; omega) (by show 5 ≤ W; omega)
  have e1 : H - 5 + 1 = H - 4 := by omega
  have e2 : W - 5 + 1 = W - 4 := by omega
  have hcwf2 : chansWF 32 (H - 4) (W - 4) c := by
    rw [← e1, ← e2]; exact hcwf
  obtain ⟨p, hpl, hpwf⟩ := maxpoolApply_shape (Net.init n cw cb lw lb).pool
    (reluChans_wf hcwf2) (by decide) (by show 0 < 2; decide) (by show 0 < 2; decide)
    (by show 2 ≤ H - 4; omega) (by show 2 ≤ W - 4; omega)
  have e3 : (H - 4 - 2) / 2 + 1 = (H - 4) / 2 := by omega
  have e4 : (W - 4 - 2) / 2 + 1 = (W - 4) / 2 := by omega
  refine ⟨c, p, hc, hpl, ?_⟩
  rw [← e3, ← e4]; exact hpwf

theorem sampleForward_some {n : ℕ} {cw : List Chans} {cb : List Val}
    {lw : List (List Val)} {lb : List Val} {H W : ℕ} {s : Chans}
    (hp : (Net.init n cw cb lw lb).paramsWF) (hs : chansWF 1 H W s)
    (hsize : 32 * ((H - 4) / 2) * ((W - 4) / 2) = 128) :
    ∃ y, sampleForward (Net.init n cw cb lw lb) s = some y ∧ y.length = n := by
  have ha : 1 ≤ (H - 4) / 2 := by
    by_contra hcon
    have h0 : (H - 4) / 2 = 0 := by omega
    rw [h0] at hsize
    simp at hsize
  have hb : 1 ≤ (W - 4) / 2 := by
    by_contra hcon
    have h0 : (W - 4) / 2 = 0 := by omega
    rw [h0] at hsize
    simp at hsize
  have hH : 6 ≤ H := by omega
  have hW : 6 ≤ W := by omega
  obtain ⟨c, p, hc, hpl, hpwf⟩ := convPool_some hp hs hH hW
  have hflat : (flattenSample p).length = (Net.init n cw cb lw lb).fcl.in_features := by
    show (flattenSample p).length = 32 * 4
    rw [flattenSample_length hpwf, hsize]
  obtain ⟨z, hz, hzlen⟩ := linearApply_some hp.2 hflat
  refine ⟨z.map relu, ?_, by simpa using hzlen⟩
  rw [sampleForward, hc, Option.some_bind, hpl, Option.some_bind, hz]
  rfl

theorem sampleForward_none {n : ℕ} {cw : List Chans} {cb : List Val}
    {lw : List (List Val)} {lb : List Val} {H W : ℕ} {s : Chans}
    (hp : (Net.init n cw cb lw lb).paramsWF) (hs : chansWF 1 H W s)
    (hsize : 32 * ((H - 4) / 2) * ((W - 4) / 2) ≠ 128) :
    sampleForward (Net.init n cw cb lw lb) s = none := by
  have hs1 : chansWF (Net.init n cw cb lw lb).conv1.in_channels H W s := hs
  by_cases h5 : 5 ≤ H ∧ 5 ≤ W
  · obtain ⟨c, hc, hcwf⟩ := conv2dApply_shape hp.1 hs1 (by show 0 < 1; decide)
      (by show 0 < 5; decide) (by show 5 ≤ H; omega) (by show 5 ≤ W; omega)
    have e1 : H - 5 + 1 = H - 4 := by omega
    have e2 : W - 5 + 1 = W - 4 := by omega
    have hcwf2 : chansWF 32 (H - 4) (W - 4) c := by
      rw [← e1, ← e2]; exact hcwf
    by_cases h6 : 6 ≤ H ∧ 6 ≤ W
    · obtain ⟨c2, p, hc2, hpl, hpwf⟩ := convPool_some hp hs h6.1 h6.2
      have hcc : c2 = c := by
        have := hc2.symm.trans hc
        simpa using this
      subst hcc
      have hflat : (flattenSample p).length ≠ (Net.init n cw cb lw lb).fcl.in_features := by
        show (flattenSample p).length ≠ 32 * 4
        rw [flattenSample_length hpwf]
        omega
      rw [sampleForward, hc, Option.some_bind, hpl, Option.some_bind,
        linearApply_none hflat]
      rfl
    · have hpool : maxpoolApply (Net.init n cw cb lw lb).pool (reluChans c) = none := by
        refine maxpoolApply_none (Net.init n cw cb lw lb).pool
          (reluChans_wf hcwf2) (by decide) (by omega) ?_
        show H - 4 < 2 ∨ W - 4 < 2
        omega
      rw [sampleForward, hc, Option.some_bind, hpool, Option.none_bind]
  · have hconv : conv2dApply (Net.init n cw cb lw lb).conv1 s = none := by
      refine conv2dApply_none hs1 (by show 0 < 1; decide) ?_
      show H < 5 ∨ W < 5
      omega
    rw [sampleForward, hconv, Option.none_bind]

/-! ### Claim theorems -/

/-- C1: the forward pass computes exactly this fixed pipeline, in this
order: a 2D convolution (1 input channel to 32 output channels, 5x5 kernel,
default stride and padding), then an element-wise rectified-linear
activation, then 2x2 max-pooling with stride 2, then flattening of all
dimensions except the batch dimension, then a linear map from 128 (= 32*4)
features to `n_classes`, then a final element-wise rectified-linear
activation, whose result is returned. -/
theorem C1_forward_pipeline (n : ℕ) (cw : List Chans) (cb : List Val)
    (lw : List (List Val)) (lb : List Val) (x : Batch) :
    (Net.init n cw cb lw lb).forward x =
      batchTraverse (fun s =>
        (conv2dApply ⟨1, 32, 5, cw, cb⟩ s).bind (fun c =>
          (maxpoolApply ⟨2, 2⟩ (reluChans c)).bind (fun p =>
            (linearApply ⟨32 * 4, n, lw, lb⟩ (flattenSample p)).map (fun y =>
              y.map relu)))) x := rfl

/-- C2: for every input tensor of shape (batch, 1, H, W) whose flattened
feature axis after convolution, activation, and pooling has size exactly
128, the forward pass returns an output tensor of shape
(batch, n_classes). -/
theorem C2_forward_output_shape (n B H W : ℕ) (cw : List Chans) (cb : List Val)
    (lw : List (List Val)) (lb : List Val) (x : Batch)
    (hp : (Net.init n cw cb lw lb).paramsWF) (hx : batchWF B 1 H W x)
    (hsize : 32 * ((H - 4) / 2) * ((W - 4) / 2) = 128) :
    ∃ ys, (Net.init n cw cb lw lb).forward x = some ys ∧
      ys.length = B ∧ ∀ y ∈ ys, y.length = n := by
  obtain ⟨ys, hys, hlen, hall⟩ := batchTraverse_all_some
    (fun s hs => sampleForward_some hp (hx.2 s hs) hsize)
  exact ⟨ys, hys, by rw [hlen, hx.1], hall⟩

theorem C2_forward_output_shape_witness :
    ∃ ys, (Net.init 3 cw0 cb0 (lw0 3) (lb0 3)).forward (zeroInput 8 8) = some ys ∧
      ys.length = 1 ∧ ∀ y ∈ ys, y.length = 3 :=
  C2_forward_output_shape 3 1 8 8 cw0 cb0 (lw0 3) (lb0 3) (zeroInput 8 8)
    (by decide) (by decide) (by decide)

/-- C3: the forward pass fails with a shape mismatch if and only if the
flattened feature axis size (32 * ((H-4)/2) * ((W-4)/2)) does not equal 128,
and no earlier step guards this precondition: whenever the convolution and
pooling are spatially defined (H, W ≥ 6), everything before the linear
transform succeeds and hands the linear layer the unchecked flattened
vector. -/
theorem C3_fail_iff_not128 (n B H W : ℕ) (cw : List Chans) (cb : List Val)
    (lw : List (List Val)) (lb : List Val) (x : Batch)
    (hp : (Net.init n cw cb lw lb).paramsWF) (hx : batchWF B 1 H W x)
    (hB : 0 < B) :
    ((Net.init n cw cb lw lb).forward x = none ↔
        32 * ((H - 4) / 2) * ((W - 4) / 2) ≠ 128) ∧
    (∀ s ∈ x, 6 ≤ H → 6 ≤ W →
      ∃ p, (conv2dApply (Net.init n cw cb lw lb).conv1 s).bind
          (fun c => maxpoolApply (Net.init n cw cb lw lb).pool (reluChans c)) = some p ∧
        (flattenSample p).length = 32 * ((H - 4) / 2) * ((W - 4) / 2)) := by
  constructor
  · constructor
    · intro hnone hsz
      obtain ⟨ys, hys, -, -⟩ := batchTraverse_all_some
        (fun s hs => sampleForward_some hp (hx.2 s hs) hsz)
      rw [Net.forward] at hnone
      rw [hnone] at hys
      exact Option.noConfusion hys
    · intro hsz
      obtain ⟨s, hs⟩ : ∃ s, s ∈ x := by
        cases x with
        | nil =>
          have h0 : B = 0 := by simpa using hx.1.symm
          exact absurd h0 (by omega)
        | cons t rest => exact ⟨t, List.mem_cons_self t rest⟩
      exact batchTraverse_none_of_mem hs (sampleForward_none hp (hx.2 s hs) hsz)
  · intro s hs h6H h6W
    obtain ⟨c, p, hc, hpl, hpwf⟩ := convPool_some hp (hx.2 s hs) h6H h6W
    refine ⟨p, ?_, ?_⟩
    · rw [hc]; exact hpl
    · exact flattenSample_length hpwf

theorem C3_fail_iff_not128_witness :
    (((Net.init 3 cw0 cb0 (lw0 3) (lb0 3)).forward (zeroInput 8 8) = none ↔
        32 * ((8 - 4) / 2) * ((8 - 4) / 2) ≠ 128) ∧
     (∀ s ∈ zeroInput 8 8, 6 ≤ 8 → 6 ≤ 8 →
       ∃ p, (conv2dApply (Net.init 3 cw0 cb0 (lw0 3) (lb0 3)).conv1 s).bind
           (fun c => maxpoolApply (Net.init 3 cw0 cb0 (lw0 3) (lb0 3)).pool
             (reluChans c)) = some p ∧
         (flattenSample p).length = 32 * ((8 - 4) / 2) * ((8 - 4) / 2))) :=
  C3_fail_iff_not128 3 1 8 8 cw0 cb0 (lw0 3) (lb0 3) (zeroInput 8 8)
    (by decide) (by decide) (by decide)

/-- C4 as stated is false: with the framework-allocated parameter shapes, a
(1, 1, 12, 12) input is rejected by the forward pass (after conv and pool
the flattened size is 32 * 4 * 4 = 512, not 128), so no output of shape
(1, n_classes) is produced. -/
theorem C4_counterexample :
    (Net.init 5 cw0 cb0 (lw0 5) (lb0 5)).forward (zeroInput 12 12) = none := by
  decide

/-- C4 (amended): for an input tensor of shape (1, 1, 8, 8), with the
default convolution and pooling parameters, the forward pass produces an
output tensor of shape (1, n_classes). -/
theorem C4_eight_by_eight (n : ℕ) (cw : List Chans) (cb : List Val)
    (lw : List (List Val)) (lb : List Val) (x : Batch)
    (hp : (Net.init n cw cb lw lb).paramsWF) (hx : batchWF 1 1 8 8 x) :
    ∃ ys, (Net.init n cw cb lw lb).forward x = some ys ∧
      ys.length = 1 ∧ ∀ y ∈ ys, y.length = n := by
  obtain ⟨ys, hys, hlen, hall⟩ := batchTraverse_all_some
    (fun s hs => sampleForward_some hp (hx.2 s hs) (by decide))
  exact ⟨ys, hys, by rw [hlen, hx.1], hall⟩

theorem C4_eight_by_eight_witness :
    ∃ ys, (Net.init 7 cw0 cb0 (lw0 7) (lb0 7)).forward (zeroInput 8 8) = some ys ∧
      ys.length = 1 ∧ ∀ y ∈ ys, y.length = 7 :=
  C4_eight_by_eight 7 cw0 cb0 (lw0 7) (lb0 7) (zeroInput 8 8) (by decide) (by decide)

/-- C5: for every input on which the forward pass succeeds, every element of
the returned output tensor is non-negative, because the final operation is
an element-wise rectified-linear activation. -/
theorem C5_output_nonneg (net : Net) (x : Batch) (ys : List (List Val))
    (h : net.forward x = some ys) : ∀ y ∈ ys, ∀ v ∈ y, 0 ≤ v := by
  intro y hy v hv
  obtain ⟨s, hs, hfs⟩ := batchTraverse_mem_some h y hy
  rw [sampleForward] at hfs
  obtain ⟨c, hc, hrest⟩ := Option.bind_eq_some.mp hfs
  obtain ⟨p, hp2, hlin⟩ := Option.bind_eq_some.mp hrest
  obtain ⟨z, hz, hyz⟩ := Option.map_eq_some'.mp hlin
  rw [← hyz] at hv
  simp only [List.mem_map] at hv
  obtain ⟨u, hu, rfl⟩ := hv
  exact le_max_left 0 u

theorem C5_output_nonneg_witness :
    (Net.init 2 cw0 cb0 (lw0 2) (lb0 2)).forward (zeroInput 8 8) = some [[0, 0]] ∧
      ∀ y ∈ [[(0 : Val), 0]], ∀ v ∈ y, 0 ≤ v :=
  ⟨by decide,
   C5_output_nonneg (Net.init 2 cw0 cb0 (lw0 2) (lb0 2)) (zeroInput 8 8)
     [[0, 0]] (by decide)⟩

/-- C6: for every positive integer `n_classes`, constructing the module
succeeds, and the constructed linear layer maps a 128-element feature
vector to an output vector of dimension exactly `n_classes`. -/
theorem C6_linear_out_dim (n : ℕ) (hn : 0 < n) (cw : List Chans) (cb : List Val)
    (lw : List (List Val)) (lb : List Val) (v : List Val)
    (hfcl : (Net.init n cw cb lw lb).fcl.paramsWF) (hv : v.length = 128) :
    (Net.init n cw cb lw lb).fcl.out_features = n ∧
      ∃ y, linearApply (Net.init n cw cb lw lb).fcl v = some y ∧ y.length = n := by
  refine ⟨rfl, ?_⟩
  exact linearApply_some hfcl (by show v.length = 32 * 4; omega)

theorem C6_linear_out_dim_witness :
    (Net.init 20 cw0 cb0 (lw0 20) (lb0 20)).fcl.out_features = 20 ∧
      ∃ y, linearApply (Net.init 20 cw0 cb0 (lw0 20) (lb0 20)).fcl
        (List.replicate 128 (0 : Val)) = some y ∧ y.length = 20 :=
  C6_linear_out_dim 20 (by decide) cw0 cb0 (lw0 20) (lb0 20)
    (List.replicate 128 0) (by decide) (by decide)

/-- C7 as stated is false: it claims that among square inputs only
H = W = 8 succeeds, but a square (1, 1, 9, 9) input also succeeds (conv
gives 5x5, pooling gives 2x2, so the flattened size is 32 * 2 * 2 = 128). -/
theorem C7_counterexample :
    (Net.init 4 cw0 cb0 (lw0 4) (lb0 4)).forward (zeroInput 9 9) =
        some [[0, 0, 0, 0]] ∧ (9 : ℕ) ≠ 8 := by
  constructor
  · decide
  · decide

/-- C7 (amended): an input of shape (batch, 1, H, W) yields a flattened
feature size of 32 * ((H-4)/2) * ((W-4)/2); the linear layer accepts the
input exactly when this equals 128; among square inputs exactly the sizes
H = W = 8 and H = W = 9 succeed; and 12x12 inputs are rejected. -/
theorem C7_accepted_sizes (n B H W : ℕ) (cw : List Chans) (cb : List Val)
    (lw : List (List Val)) (lb : List Val) (x : Batch)
    (hp : (Net.init n cw cb lw lb).paramsWF) (hx : batchWF B 1 H W x)
    (hB : 0 < B) :
    (∀ s ∈ x, 6 ≤ H → 6 ≤ W →
      ∃ p, (conv2dApply (Net.init n cw cb lw lb).conv1 s).bind
          (fun c => maxpoolApply (Net.init n cw cb lw lb).pool (reluChans c)) = some p ∧
        (flattenSample p).length = 32 * ((H - 4) / 2) * ((W - 4) / 2)) ∧
    ((Net.init n cw cb lw lb).forward x ≠ none ↔
        32 * ((H - 4) / 2) * ((W - 4) / 2) = 128) ∧
    (H = W → ((Net.init n cw cb lw lb).forward x ≠ none ↔ H = 8 ∨ H = 9)) ∧
    (H = 12 → W = 12 → (Net.init n cw cb lw lb).forward x = none) := by
  have hnone_iff : (Net.init n cw cb lw lb).forward x = none ↔
      32 * ((H - 4) / 2) * ((W - 4) / 2) ≠ 128 := by
    constructor
    · intro hnone hsz
      obtain ⟨ys, hys, -, -⟩ := batchTraverse_all_some
        (fun s hs => sampleForward_some hp (hx.2 s hs) hsz)
      rw [Net.forward] at hnone
      rw [hnone] at hys
      exact Option.noConfusion hys
    · intro hsz
      obtain ⟨s, hs⟩ : ∃ s, s ∈ x := by
        cases x with
        | nil =>
          have h0 : B = 0 := by simpa using hx.1.symm
          exact absurd h0 (by omega)
        | cons t rest => exact ⟨t, List.mem_cons_self t rest⟩
      exact batchTraverse_none_of_mem hs (sampleForward_none hp (hx.2 s hs) hsz)
  have hsome_iff : (Net.init n cw cb lw lb).forward x ≠ none ↔
      32 * ((H - 4) / 2) * ((W - 4) / 2) = 128 := by
    rw [ne_eq, hnone_iff]
    exact not_not
  refine ⟨?_, hsome_iff, ?_, ?_⟩
  · intro s hs h6H h6W
    obtain ⟨c, p, hc, hpl, hpwf⟩ := convPool_some hp (hx.2 s hs) h6H h6W
    refine ⟨p, ?_, ?_⟩
    · rw [hc]; exact hpl
    · exact flattenSample_length hpwf
  · intro hHW
    rw [hsome_iff]
    subst hHW
    constructor
    · intro h
      have hle : (H - 4) / 2 ≤ 2 := by
        by_contra hgt
        push_neg at hgt
        have h3 : 3 ≤ (H - 4) / 2 := hgt
        have hbig : 32 * 3 * 3 ≤ 32 * ((H - 4) / 2) * ((H - 4) / 2) :=
          Nat.mul_le_mul (Nat.mul_le_mul (Nat.le_refl 32) h3) h3
        rw [h] at hbig
        omega
      have h2 : (H - 4) / 2 = 2 := by
        have h0 : (H - 4) / 2 = 0 ∨ (H - 4) / 2 = 1 ∨ (H - 4) / 2 = 2 := by omega
        rcases h0 with h0 | h0 | h0 <;> rw [h0] at h <;> omega
      omega
    · intro h
      rcases h with rfl | rfl <;> decide
  · intro hH12 hW12
    subst hH12
    subst hW12
    rw [hnone_iff]
    decide

/-- C8: constructing the module with n_classes = 0 does not raise an error
in the model: the linear layer's output dimension is 0, and every
successful forward pass returns only rows of length 0. -/
theorem C8_zero_classes (cw : List Chans) (cb : List Val)
    (lw : List (List Val)) (lb : List Val)
    (hp : (Net.init 0 cw cb lw lb).paramsWF) :
    (Net.init 0 cw cb lw lb).fcl.out_features = 0 ∧
      ∀ x ys, (Net.init 0 cw cb lw lb).forward x = some ys →
        ∀ y ∈ ys, y.length = 0 := by
  refine ⟨rfl, ?_⟩
  intro x ys h y hy
  obtain ⟨s, hs, hfs⟩ := batchTraverse_mem_some h y hy
  rw [sampleForward] at hfs
  obtain ⟨c, hc, hrest⟩ := Option.bind_eq_some.mp hfs
  obtain ⟨p, hp2, hlin⟩ := Option.bind_eq_some.mp hrest
  obtain ⟨z, hz, hyz⟩ := Option.map_eq_some'.mp hlin
  have h1 : (Net.init 0 cw cb lw lb).fcl.weight.length = 0 := hp.2.1
  have h0 : z.length = 0 := by
    rw [(linearApply_some_inv hz).2, h1]
    simp
  rw [← hyz]
  simpa using h0

theorem C8_zero_classes_witness :
    (Net.init 0 cw0 cb0 (lw0 0) (lb0 0)).fcl.out_features = 0 ∧
      ∀ y ∈ [([] : List Val)], y.length = 0 :=
  ⟨(C8_zero_classes cw0 cb0 (lw0 0) (lb0 0) (by decide)).1,
   (C8_zero_classes cw0 cb0 (lw0 0) (lb0 0) (by decide)).2 (zeroInput 8 8) [[]]
     (by decide)⟩

theorem C7_accepted_sizes_witness :
    ((∀ s ∈ zeroInput 9 9, 6 ≤ 9 → 6 ≤ 9 →
      ∃ p, (conv2dApply (Net.init 6 cw0 cb0 (lw0 6) (lb0 6)).conv1 s).bind
          (fun c => maxpoolApply (Net.init 6 cw0 cb0 (lw0 6) (lb0 6)).pool
            (reluChans c)) = some p ∧
        (flattenSample p).length = 32 * ((9 - 4) / 2) * ((9 - 4) / 2)) ∧
    ((Net.init 6 cw0 cb0 (lw0 6) (lb0 6)).forward (zeroInput 9 9) ≠ none ↔
        32 * ((9 - 4) / 2) * ((9 - 4) / 2) = 128) ∧
    ((9 : ℕ) = 9 → ((Net.init 6 cw0 cb0 (lw0 6) (lb0 6)).forward (zeroInput 9 9) ≠ none ↔
        (9 : ℕ) = 8 ∨ (9 : ℕ) = 9)) ∧
    ((9 : ℕ) = 12 → (9 : ℕ) = 12 →
        (Net.init 6 cw0 cb0 (lw0 6) (lb0 6)).forward (zeroInput 9 9) = none)) :=
  C7_accepted_sizes 6 1 9 9 cw0 cb0 (lw0 6) (lb0 6) (zeroInput 9 9)
    (by decide) (by decide) (by decide)

/-! ### The `main.py` script -/

/-- Observable events of running the script: module constructions and lines
printed to standard output. -/
inductive Event where
  | constructed (n_classes : ℕ)
  | printed (s : String)
deriving DecidableEq

/-- Whether an event is a module construction. -/
def Event.isConstruction : Event → Bool
  | .constructed _ => true
  | .printed _ => false

/-- Modelled from the spec: the display interface (`print(net)` renders the
framework's `nn.Module` structural representation, which is not part of
this repository): a human-readable summary listing the convolution,
max-pooling and linear layers with their configured sizes. -/
def Net.reprString (net : Net) : String :=
  "Net( (conv1): Conv2d(" ++ toString net.conv1.in_channels ++ ", "
    ++ toString net.conv1.out_channels ++ ", kernel_size="
    ++ toString net.conv1.kernel_size ++ ") (pool): MaxPool2d(kernel_size="
    ++ toString net.pool.kernel_size ++ ", stride=" ++ toString net.pool.stride
    ++ ") (fcl): Linear(in_features=" ++ toString net.fcl.in_features
    ++ ", out_features=" ++ toString net.fcl.out_features ++ ") )"

/-- `Net(n_classes)`: construction, recorded as an event. -/
def constructNet (n_classes : ℕ) (cw : List Chans) (cb : List Val)
    (lw : List (List Val)) (lb : List Val) : Net × List Event :=
  (Net.init n_classes cw cb lw lb, [Event.constructed n_classes])

/-- `print(obj)`: recorded as an event. -/
def printLine (s : String) : List Event := [Event.printed s]

/-- `main()` of `main.py`: sets `n_classes = 20`, constructs `Net(n_classes)`
and prints it; the returned number is the process exit status. -/
def mainRun (cw : List Chans) (cb : List Val) (lw : List (List Val))
    (lb : List Val) : List Event × ℕ :=
  let n_classes := 20
  let r := constructNet n_classes cw cb lw lb
  (r.2 ++ printLine r.1.reprString, 0)

/-- C9: running the script with no arguments constructs exactly one module
instance, with the hard-coded `n_classes = 20`, prints its structural
representation to standard output, and exits with status 0 (construction is
total in the model, so no error path is taken). -/
theorem C9_main_behaviour (cw : List Chans) (cb : List Val)
    (lw : List (List Val)) (lb : List Val) :
    (mainRun cw cb lw lb).1 =
      [Event.constructed 20, Event.printed (Net.init 20 cw cb lw lb).reprString] ∧
    ((mainRun cw cb lw lb).1.filter Event.isConstruction) = [Event.constructed 20] ∧
    (mainRun cw cb lw lb).2 = 0 :=
  ⟨rfl, rfl, rfl⟩

/-! ### State-passing embedding of the forward pass -/

/-- State-passing `Conv2dLayer` application: result plus the layer's
(unchanged) parameter state. -/
def Conv2dLayer.applySt (l : Conv2dLayer) (x : Chans) : Option Chans × Conv2dLayer :=
  (conv2dApply l x, l)

/-- State-passing `MaxPool2dLayer` application. -/
def MaxPool2dLayer.applySt (l : MaxPool2dLayer) (x : Chans) :
    Option Chans × MaxPool2dLayer :=
  (maxpoolApply l x, l)

/-- State-passing `LinearLayer` application. -/
def LinearLayer.applySt (l : LinearLayer) (v : List Val) :
    Option (List Val) × LinearLayer :=
  (linearApply l v, l)

/-- State-passing embedding of `Net.forward` on one sample: each layer call
returns the layer's post-state, and the module state after the call is
rebuilt from those post-states (the method body reads `self.conv1`,
`self.pool` and `self.fcl` and assigns only the local `x`). -/
def sampleForwardSt (net : Net) (s : Chans) : Option (List Val) × Net :=
  let cr := net.conv1.applySt s
  match cr.1 with
  | none => (none, { conv1 := cr.2, pool := net.pool, fcl := net.fcl })
  | some c =>
    let pr := net.pool.applySt (reluChans c)
    match pr.1 with
    | none => (none, { conv1 := cr.2, pool := pr.2, fcl := net.fcl })
    | some p =>
      let lr := net.fcl.applySt (flattenSample p)
      (lr.1.map (fun y => y.map relu), { conv1 := cr.2, pool := pr.2, fcl := lr.2 })

/-- State-passing embedding of `Net.forward` on a batch, threading the
module state through every sample. -/
def Net.forwardSt (net : Net) : Batch → Option (List (List Val)) × Net
  | [] => (some [], net)
  | s :: rest =>
    let r1 := sampleForwardSt net s
    let r2 := Net.forwardSt r1.2 rest
    (match r1.1, r2.1 with
     | some y, some ys => some (y :: ys)
     | _, _ => none, r2.2)

theorem sampleForwardSt_eq (net : Net) (s : Chans) :
    sampleForwardSt net s = (sampleForward net s, net) := by
  rw [sampleForwardSt, sampleForward]
  cases hc : conv2dApply net.conv1 s with
  | none => simp [Conv2dLayer.applySt, hc]
  | some c =>
    cases hpool : maxpoolApply net.pool (reluChans c) with
    | none => simp [Conv2dLayer.applySt, MaxPool2dLayer.applySt, hc, hpool]
    | some p =>
      simp [Conv2dLayer.applySt, MaxPool2dLayer.applySt, LinearLayer.applySt,
        hc, hpool]

/-- C10: the forward pass only reads the module's parameter tensors and
does not mutate them: after a forward call the module state equals the
state before it, and the value returned is the pure forward result. -/
theorem C10_params_unchanged (net : Net) (x : Batch) :
    (net.forwardSt x).2 = net ∧ (net.forwardSt x).1 = net.forward x := by
  induction x with
  | nil => exact ⟨rfl, rfl⟩
  | cons s rest ih =>
    simp only [Net.forwardSt, sampleForwardSt_eq, Net.forward, batchTraverse]
    refine ⟨ih.1, ?_⟩
    have h2 := ih.2
    rw [Net.forward] at h2
    rw [h2]
